import Mathlib

/-!
Verification development for the Fuel Rust SDK ABI codec core: schema
resolution (`parse.rs`), the token model and padding helpers (`core.rs`),
call construction (`contract.rs`), and the encoder/decoder/selector/log
components described by the design document.  Machine integers are
modelled as `Nat` with explicit reductions modulo `2^w`; Rust strings are
modelled as `List Char`, raw byte buffers as `List Nat` (each entry a
byte value).  Fallible Rust functions return an explicit result type.
-/

namespace Fuels

/-- Big-endian byte rendering of a natural number into `k` bytes
(the model of Rust's `to_be_bytes` for a `k`-byte integer). -/
def beBytes : Nat → Nat → List Nat
  | 0, _ => []
  | k + 1, v => beBytes k (v / 256) ++ [v % 256]

/-- Big-endian value of a byte list (used by the decoder). -/
def beVal (bs : List Nat) : Nat :=
  bs.foldl (fun a b => a * 256 + b) 0

/-- Reduce to a 32-bit word. -/
def u32of (n : Nat) : Nat := n % 4294967296

/-- 32-bit rotate right. -/
def rotr (n x : Nat) : Nat := u32of ((x >>> n) ||| (x <<< (32 - n)))

/-- SHA-256 round constants. -/
def shaK : List Nat :=
  [1116352408, 1899447441, 3049323471, 3921009573, 961987163,
   1508970993, 2453635748, 2870763221, 3624381080, 310598401,
   607225278, 1426881987, 1925078388, 2162078206, 2614888103,
   3248222580, 3835390401, 4022224774, 264347078, 604807628,
   770255983, 1249150122, 1555081692, 1996064986, 2554220882,
   2821834349, 2952996808, 3210313671, 3336571891, 3584528711,
   113926993, 338241895, 666307205, 773529912, 1294757372,
   1396182291, 1695183700, 1986661051, 2177026350, 2456956037,
   2730485921, 2820302411, 3259730800, 3345764771, 3516065817,
   3600352804, 4094571909, 275423344, 430227734, 506948616,
   659060556, 883997877, 958139571, 1322822218, 1537002063,
   1747873779, 1955562222, 2024104815, 2227730452, 2361852424,
   2428436474, 2756734187, 3204031479, 3329325298]

/-- SHA-256 initial state. -/
def shaH0 : List Nat :=
  [1779033703, 3144134277, 1013904242, 2773480762,
   1359893119, 2600822924, 528734635, 1541459225]

/-- Append one word of the SHA-256 message schedule. -/
def shaSchedStep (w : List Nat) : List Nat :=
  let t := w.length
  let x15 := w.getD (t - 15) 0
  let x2 := w.getD (t - 2) 0
  let s0 := u32of (rotr 7 x15 ^^^ rotr 18 x15 ^^^ (x15 >>> 3))
  let s1 := u32of (rotr 17 x2 ^^^ rotr 19 x2 ^^^ (x2 >>> 10))
  w ++ [u32of (s1 + w.getD (t - 7) 0 + s0 + w.getD (t - 16) 0)]

/-- Iterate the schedule extension. -/
def shaExtend : Nat → List Nat → List Nat
  | 0, w => w
  | k + 1, w => shaExtend k (shaSchedStep w)

/-- One SHA-256 compression round. -/
def shaRound (st : List Nat) (kw : Nat × Nat) : List Nat :=
  match st with
  | [a, b, c, d, e, f, g, h] =>
    let s1 := u32of (rotr 6 e ^^^ rotr 11 e ^^^ rotr 25 e)
    let ch := u32of ((e &&& f) ^^^ ((e ^^^ 0xffffffff) &&& g))
    let t1 := u32of (h + s1 + ch + kw.1 + kw.2)
    let s0 := u32of (rotr 2 a ^^^ rotr 13 a ^^^ rotr 22 a)
    let mj := u32of ((a &&& b) ^^^ (a &&& c) ^^^ (b &&& c))
    let t2 := u32of (s0 + mj)
    [u32of (t1 + t2), a, b, c, u32of (d + t1), e, f, g]
  | other => other

/-- Process one 64-byte block. -/
def shaBlock (h : List Nat) (block : List Nat) : List Nat :=
  let w0 := (List.range 16).map fun i => beVal ((block.drop (4 * i)).take 4)
  let w := shaExtend 48 w0
  let st := (shaK.zip w).foldl shaRound h
  List.zipWith (fun a b => u32of (a + b)) h st

/-- SHA-256 message padding. -/
def shaPad (msg : List Nat) : List Nat :=
  let r := (msg.length + 1) % 64
  msg ++ [0x80] ++ List.replicate ((120 - r) % 64) 0 ++ beBytes 8 (8 * msg.length)

/-- Split a byte list into 64-byte blocks; the first argument is a
structural-recursion bound (any value at least the list length works). -/
def shaChunks : Nat → List Nat → List (List Nat)
  | 0, _ => []
  | fuel + 1, l => if l = [] then [] else l.take 64 :: shaChunks fuel (l.drop 64)

/-- SHA-256 digest (32 bytes) of a byte message. -/
def sha256 (msg : List Nat) : List Nat :=
  let padded := shaPad msg
  (((shaChunks padded.length padded).foldl shaBlock shaH0).map (beBytes 4)).flatten

/-- Byte rendering of an ascii string. -/
def strBytes (s : List Char) : List Nat := s.map Char.toNat

/-! ## Rust string helpers (`&str` as `List Char`) -/

/-- `str::contains(char)`. -/
def containsChar : List Char → Char → Bool
  | [], _ => false
  | c :: t, x => c = x || containsChar t x

/-- Pattern `pat` is a prefix of `s`. -/
def prefixCL : List Char → List Char → Bool
  | [], _ => true
  | _ :: _, [] => false
  | p :: pt, c :: ct => p = c && prefixCL pt ct

/-- `str::contains(&str)`: `pat` occurs as a contiguous substring of `s`. -/
def containsSub (pat : List Char) : List Char → Bool
  | [] => pat.isEmpty
  | c :: t => prefixCL pat (c :: t) || containsSub pat t

/-- `str::starts_with(char)`. -/
def startsWithChar (s : List Char) (x : Char) : Bool :=
  match s with
  | [] => false
  | c :: _ => c = x

/-- `str::ends_with(char)`. -/
def endsWithChar (s : List Char) (x : Char) : Bool :=
  match s.getLast? with
  | some c => c = x
  | none => false

/-- `str::split(char)`: split on every occurrence of a separator char. -/
def splitCharCL (sep : Char) : List Char → List (List Char)
  | [] => [[]]
  | c :: t =>
    if c = sep then [] :: splitCharCL sep t
    else
      match splitCharCL sep t with
      | r :: rs => (c :: r) :: rs
      | [] => [[c]]

/-- `str::split("; ")`: split on every non-overlapping occurrence of the
two-character separator `"; "`, scanning left to right. -/
def splitSS : List Char → List (List Char)
  | [] => [[]]
  | [c] => [[c]]
  | c :: d :: t =>
    if c = ';' ∧ d = ' ' then [] :: splitSS t
    else
      match splitSS (d :: t) with
      | r :: rs => (c :: r) :: rs
      | [] => [[c]]

/-- `str::parse::<usize>()` restricted to plain digit strings (the model
ignores the optional sign Rust would also accept). -/
def parseUsize (s : List Char) : Option Nat :=
  if !s.isEmpty && s.all (fun c => c.isDigit) then
    some (s.foldl (fun a c => a * 10 + (c.toNat - 48)) 0)
  else none

/-! ## Data model: `ParamType`, `Property` (`fuels-types`) -/

/-- `ParamType` from `fuels-types::param_types`, the resolved type tree.
`Enum` carries its variant list (`EnumVariants` is a vector of variant
types with implicit 0-based discriminants). -/
inductive ParamType where
  | Unit
  | Bool
  | U8
  | U16
  | U32
  | U64
  | Byte
  | B256
  | String (n : Nat)
  | Array (t : ParamType) (n : Nat)
  | Vector (t : ParamType)
  | Tuple (ts : List ParamType)
  | Struct (ts : List ParamType)
  | Enum (vs : List ParamType)

/-- The variant list of an enum type. -/
abbrev EnumVariants := List ParamType

/-- Modelled from the spec: `EnumVariants::new` (source file
`enum_variants.rs` is not under `src/`); the spec requires at least one
variant, so construction fails on an empty list. -/
def EnumVariants.new (ts : List ParamType) : Option EnumVariants :=
  if ts.isEmpty then none else some ts

/-- A schema record (`Property` from `fuels-types`): a name, a type
syntax string, and optional ordered child components. -/
inductive Property where
  | mk (name : List Char) (type_field : List Char) (components : Option (List Property))

/-- The `type_field` accessor. -/
def Property.type_field : Property → List Char
  | .mk _ t _ => t

/-- The `components` accessor. -/
def Property.components : Property → Option (List Property)
  | .mk _ _ c => c

/-- Modelled from the spec: `Property::is_struct_type` (not under `src/`);
the spec describes the custom-type syntax as the prefixed form
`struct <Name>`. -/
def Property.isStructType (p : Property) : Bool :=
  prefixCL "struct ".data p.type_field

/-- Modelled from the spec: `Property::is_enum_type` (not under `src/`);
the custom-type syntax `enum <Name>`. -/
def Property.isEnumType (p : Property) : Bool :=
  prefixCL "enum ".data p.type_field

/-- Modelled from the spec: `ParamType::from_str` (not under `src/`);
an exact keyword match against the primitive set.  `()` is not matched
here: `parse.rs` handles it separately after `from_str` fails, and
`str[n]` / `[T; n]` / tuple syntax are not keywords. -/
def ParamType.fromStr : List Char → Option ParamType
  | ['b', 'o', 'o', 'l'] => some .Bool
  | ['u', '8'] => some .U8
  | ['u', '1', '6'] => some .U16
  | ['u', '3', '2'] => some .U32
  | ['u', '6', '4'] => some .U64
  | ['b', 'y', 't', 'e'] => some .Byte
  | ['b', '2', '5', '6'] => some .B256
  | _ => none

/-! ## `fuels-core/src/parse.rs` -/

/-- Errors of `fuels_types::errors::Error` reachable from `parse.rs`. -/
inductive FuelsError where
  | invalidType (msg : List Char)
  | parseIntError
  deriving DecidableEq

/-- Outcome of a parse function.  `panicked` models a Rust panic
(`expect` or an out-of-bounds slice); `outOfFuel` is a modelling
artifact of the structural recursion bound and is never returned once
the bound exceeds the recursion depth. -/
inductive ParseRes where
  | ok (pt : ParamType)
  | err (e : FuelsError)
  | panicked (msg : List Char)
  | outOfFuel

/-- Body of `parse_tuple_param`, with the recursive call abstracted. -/
def parse_tuple_param_aux (recur : Property → ParseRes) (p : Property) : ParseRes :=
  match p.components with
  | none => .panicked "tuples should have components".data
  | some cs => go cs []
where
  go : List Property → List ParamType → ParseRes
    | [], acc => .ok (.Tuple acc.reverse)
    | c :: rest, acc =>
      match recur c with
      | .ok pt => go rest (pt :: acc)
      | other => other

/-- Body of `parse_custom_type_param`, with the recursive call
abstracted. -/
def parse_custom_type_param_aux (recur : Property → ParseRes) (p : Property) : ParseRes :=
  match p.components with
  | none => .err (.invalidType "cannot parse custom type with no components".data)
  | some cs => go cs []
where
  go : List Property → List ParamType → ParseRes
    | [], acc =>
      let params := acc.reverse
      if p.isStructType then .ok (.Struct params)
      else if p.isEnumType then
        match EnumVariants.new params with
        | some vs => .ok (.Enum vs)
        | none => .err (.invalidType "enum variants can not be empty".data)
      else .err (.invalidType p.type_field)
    | c :: rest, acc =>
      match recur c with
      | .ok pt => go rest (pt :: acc)
      | other => other

/-- Body of `parse_string_param` (no recursion). -/
def parse_string_param (p : Property) : ParseRes :=
  let split := splitCharCL '[' p.type_field
  if split.length ≠ 2 ∨ split.getD 0 [] ≠ "str".data then
    .err (.invalidType ("Expected parameter type `str[n]`, found `".data
      ++ p.type_field ++ "`".data))
  else
    let s1 := split.getD 1 []
    if s1.isEmpty then .panicked "byte index out of bounds".data
    else
      match parseUsize s1.dropLast with
      | some n => .ok (.String n)
      | none => .err .parseIntError

/-- Body of `parse_array_param`, with the call into
`parse_custom_type_param` abstracted.  Mirrors the source order: the
element type is resolved before the size digits are parsed. -/
def parse_array_param_aux (recurCustom : Property → ParseRes) (p : Property) : ParseRes :=
  let split := splitSS p.type_field
  if split.length ≠ 2 then
    .err (.invalidType ("Expected parameter type `[T; n]`, found `".data
      ++ p.type_field ++ "`".data))
  else
    let s0 := split.getD 0 []
    let size := split.getD 1 []
    if s0.isEmpty then .panicked "byte index out of bounds".data
    else
      let elemRes : ParseRes :=
        match ParamType.fromStr (s0.drop 1) with
        | some pt => .ok pt
        | none =>
          match p.components with
          | none => .panicked "array should have components".data
          | some [] => .panicked "components in array should have at least one component".data
          | some (c :: _) => recurCustom c
      match elemRes with
      | .ok pt =>
        if size.isEmpty then .panicked "byte index out of bounds".data
        else
          match parseUsize size.dropLast with
          | some n => .ok (.Array pt n)
          | none => .err .parseIntError
      | other => other

/-- `parse_param_type_from_property`: dispatch on the type string.  The
first argument is a structural-recursion bound on the nesting depth of
the property tree. -/
def parse_param_type_from_property : Nat → Property → ParseRes
  | 0, _ => .outOfFuel
  | fuel + 1, p =>
    match ParamType.fromStr p.type_field with
    | some pt => .ok pt
    | none =>
      if p.type_field = "()".data then .ok .Unit
      else if containsChar p.type_field '[' && containsChar p.type_field ']' then
        if containsSub "str[".data p.type_field then parse_string_param p
        else parse_array_param_aux
          (parse_custom_type_param_aux (parse_param_type_from_property fuel)) p
      else if startsWithChar p.type_field '(' && endsWithChar p.type_field ')' then
        parse_tuple_param_aux (parse_param_type_from_property fuel) p
      else parse_custom_type_param_aux (parse_param_type_from_property fuel) p

/-- `parse_tuple_param` as a standalone entry point. -/
def parse_tuple_param (fuel : Nat) : Property → ParseRes :=
  parse_tuple_param_aux (parse_param_type_from_property fuel)

/-- `parse_custom_type_param` as a standalone entry point. -/
def parse_custom_type_param (fuel : Nat) : Property → ParseRes :=
  parse_custom_type_param_aux (parse_param_type_from_property fuel)

/-- `parse_array_param` as a standalone entry point. -/
def parse_array_param (fuel : Nat) : Property → ParseRes :=
  parse_array_param_aux (parse_custom_type_param fuel)

/-! ## Token model and padding helpers (`fuels-types/src/core.rs`) -/

/-- `CodecError` variants reachable from the modelled codec. -/
inductive CodecError where
  | invalidData (msg : List Char)
  | unsupported (msg : List Char)

/-- `StringToken`: raw textual data (modelled as its UTF-8 bytes)
plus the length required by the schema; validated only when consumed. -/
structure StringToken where
  data : List Nat
  expected_len : Nat

/-- `StringToken::new`. -/
def StringToken.new (data : List Nat) (expected_len : Nat) : StringToken :=
  ⟨data, expected_len⟩

/-- `data.is_ascii()`: every byte is at most 0x7f. -/
def StringToken.isAscii (st : StringToken) : Bool :=
  st.data.all (fun b => b < 128)

/-- `StringToken::validate`: ascii check first, then exact length. -/
def StringToken.validate (st : StringToken) : Except CodecError Unit :=
  if !st.isAscii then
    .error (.invalidData "String data can only have ascii values".data)
  else if st.data.length ≠ st.expected_len then
    .error (.invalidData ("String data has len ".data ++ Nat.toDigits 10 st.data.length
      ++ ", but the expected len is ".data ++ Nat.toDigits 10 st.expected_len))
  else .ok ()

/-- `StringToken::get_encodable_str`. -/
def StringToken.get_encodable_str (st : StringToken) : Except CodecError (List Nat) :=
  match st.validate with
  | .ok _ => .ok st.data
  | .error e => .error e

/-- `TryFrom<StringToken> for String`. -/
def stringTryFrom (st : StringToken) : Except CodecError (List Nat) :=
  match st.validate with
  | .ok _ => .ok st.data
  | .error e => .error e

/-- `Token`: the tagged runtime value mirroring `ParamType`.  `Enum`
carries the discriminant, the active payload and the enum's variant
schema (the source's boxed `EnumSelector`). -/
inductive Token where
  | Unit
  | U8 (v : Nat)
  | U16 (v : Nat)
  | U32 (v : Nat)
  | U64 (v : Nat)
  | Bool (b : Bool)
  | Byte (v : Nat)
  | B256 (bytes : List Nat)
  | Array (xs : List Token)
  | Vector (xs : List Token)
  | String (s : StringToken)
  | Struct (xs : List Token)
  | Enum (disc : Nat) (payload : Token) (vs : EnumVariants)
  | Tuple (xs : List Token)

/-- `pad_u8`: an all-zero 8-byte word with the value at index 7. -/
def pad_u8 (v : Nat) : List Nat := List.replicate 7 0 ++ [v]

/-- `pad_u16`: big-endian bytes of the value copied into indices 6-7. -/
def pad_u16 (v : Nat) : List Nat := List.replicate 6 0 ++ beBytes 2 v

/-- `pad_u32`: big-endian bytes of the value copied into indices 4-7. -/
def pad_u32 (v : Nat) : List Nat := List.replicate 4 0 ++ beBytes 4 v

/-- `fuel_types::bytes::padded_len` (external crate): round a byte count
up to the next multiple of the 8-byte word size. -/
def padded_len (n : Nat) : Nat := 8 * ((n + 7) / 8)

/-- `pad_string`: the bytes followed by zero padding to a word boundary. -/
def pad_string (s : List Nat) : List Nat :=
  s ++ List.replicate (padded_len s.length - s.length) 0

/-! ## Static widths and the encoder

Modelled from the spec (the `abi_encoder` source is not under `src/`):
§4.3 gives the byte layout of every statically-sized type; `Vector`
(the dynamic tail and offset placeholders) is outside the fragment the
claims exercise and is reported as unsupported. -/

mutual
/-- Modelled from the spec: encoded width in bytes of a statically-sized
type (§4.3/§4.4); `Unit` occupies no bytes, `Vector` reserves its
one-word head slot. -/
def staticSize : ParamType → Nat
  | .Unit => 0
  | .Bool => 8
  | .U8 => 8
  | .U16 => 8
  | .U32 => 8
  | .U64 => 8
  | .Byte => 8
  | .B256 => 32
  | .String n => padded_len n
  | .Array t n => n * staticSize t
  | .Vector _ => 8
  | .Tuple ts => sizeList ts
  | .Struct ts => sizeList ts
  | .Enum vs => 8 + maxVariantWidth vs

/-- Total width of a sequence of types. -/
def sizeList : List ParamType → Nat
  | [] => 0
  | t :: ts => staticSize t + sizeList ts

/-- Maximum width over an enum's variants. -/
def maxVariantWidth : List ParamType → Nat
  | [] => 0
  | t :: ts => max (staticSize t) (maxVariantWidth ts)
end

mutual
/-- Modelled from the spec: the recursive encoder of §4.3.  Fundamental
values fill one right-aligned big-endian word (via the source's padding
helpers where they exist); composites concatenate; an enum is its
discriminant word followed by the active payload zero-padded to the
maximum variant width. -/
def encodeToken : Token → Except CodecError (List Nat)
  | .Unit => .ok []
  | .U8 v => .ok (pad_u8 v)
  | .U16 v => .ok (pad_u16 v)
  | .U32 v => .ok (pad_u32 v)
  | .U64 v => .ok (beBytes 8 v)
  | .Bool b => .ok (List.replicate 7 0 ++ [if b then 1 else 0])
  | .Byte v => .ok (pad_u8 v)
  | .B256 bs => .ok bs
  | .String st =>
    match st.get_encodable_str with
    | .ok s => .ok (pad_string s)
    | .error e => .error e
  | .Array xs => encodeList xs
  | .Vector _ => .error (.unsupported "vector encoding is outside the modelled static fragment".data)
  | .Struct xs => encodeList xs
  | .Tuple xs => encodeList xs
  | .Enum d t vs =>
    match encodeToken t with
    | .ok payload =>
      .ok (beBytes 8 d ++ payload ++ List.replicate (maxVariantWidth vs - payload.length) 0)
    | .error e => .error e

/-- Encode a token sequence by concatenation, stopping at the first
failure. -/
def encodeList : List Token → Except CodecError (List Nat)
  | [] => .ok []
  | t :: ts =>
    match encodeToken t with
    | .ok b =>
      match encodeList ts with
      | .ok r => .ok (b ++ r)
      | .error e => .error e
    | .error e => .error e
end

/-- Modelled from the spec: `resolve(buffer, base_offset)` patches
offset placeholders; a buffer from the static fragment (no `Vector`)
contains none, so resolution returns it unchanged. -/
def resolveBuf (buf : List Nat) (_base_offset : Nat) : List Nat := buf

/-! ## Selector computation (§4.5) -/

mutual
/-- Modelled from the spec: the canonical type name used inside a
function signature; a struct of components renders as `s(...)`, an enum
as `e(...)` (validated against the selector constants asserted by the
harness tests under `src/`). -/
def canonicalTypeName : ParamType → List Char
  | .Unit => "()".data
  | .Bool => "bool".data
  | .U8 => "u8".data
  | .U16 => "u16".data
  | .U32 => "u32".data
  | .U64 => "u64".data
  | .Byte => "byte".data
  | .B256 => "b256".data
  | .String n => "str[".data ++ Nat.toDigits 10 n ++ "]".data
  | .Array t n => "[".data ++ canonicalTypeName t ++ "; ".data ++ Nat.toDigits 10 n ++ "]".data
  | .Vector t => "v(".data ++ canonicalTypeName t ++ ")".data
  | .Tuple ts => "(".data ++ joinTypeNames ts ++ ")".data
  | .Struct ts => "s(".data ++ joinTypeNames ts ++ ")".data
  | .Enum vs => "e(".data ++ joinTypeNames vs ++ ")".data

/-- Comma-separated canonical names. -/
def joinTypeNames : List ParamType → List Char
  | [] => []
  | [t] => canonicalTypeName t
  | t :: ts => canonicalTypeName t ++ ",".data ++ joinTypeNames ts
end

/-- The canonical signature string of §4.5. -/
def buildSignature (name : List Char) (params : List ParamType) : List Char :=
  name ++ "(".data ++ joinTypeNames params ++ ")".data

/-- Modelled from the spec: `compute_selector`; the first 4 bytes of the
SHA-256 digest of the canonical signature, right-aligned in an 8-byte
word whose high 4 bytes are zero. -/
def compute_selector (name : List Char) (params : List ParamType) : List Nat :=
  [0, 0, 0, 0] ++ (sha256 (strBytes (buildSignature name params))).take 4

/-! ## Decoder (§4.4)

Modelled from the spec: the `abi_decoder` source is not under `src/`.
Cursor-based recursive descent; each step consumes the word-aligned
static width of its type and fails with `InvalidData` when the buffer
is too short or an enum discriminant is out of range. -/

/-- Low-order `k`-byte value of an 8-byte word. -/
def lowVal (k : Nat) (w : List Nat) : Nat := beVal (w.drop (8 - k))

set_option linter.unusedVariables false in
mutual
/-- Decode one value, returning the token and the remaining bytes. -/
def decodeParam : ParamType → List Nat → Except CodecError (Token × List Nat)
  | .Unit, bytes => .ok (.Unit, bytes)
  | .Bool, bytes =>
    if bytes.length < 8 then .error (.invalidData "not enough bytes in buffer".data)
    else .ok (.Bool (lowVal 1 (bytes.take 8) ≠ 0), bytes.drop 8)
  | .U8, bytes =>
    if bytes.length < 8 then .error (.invalidData "not enough bytes in buffer".data)
    else .ok (.U8 (lowVal 1 (bytes.take 8)), bytes.drop 8)
  | .U16, bytes =>
    if bytes.length < 8 then .error (.invalidData "not enough bytes in buffer".data)
    else .ok (.U16 (lowVal 2 (bytes.take 8)), bytes.drop 8)
  | .U32, bytes =>
    if bytes.length < 8 then .error (.invalidData "not enough bytes in buffer".data)
    else .ok (.U32 (lowVal 4 (bytes.take 8)), bytes.drop 8)
  | .U64, bytes =>
    if bytes.length < 8 then .error (.invalidData "not enough bytes in buffer".data)
    else .ok (.U64 (beVal (bytes.take 8)), bytes.drop 8)
  | .Byte, bytes =>
    if bytes.length < 8 then .error (.invalidData "not enough bytes in buffer".data)
    else .ok (.Byte (lowVal 1 (bytes.take 8)), bytes.drop 8)
  | .B256, bytes =>
    if bytes.length < 32 then .error (.invalidData "not enough bytes in buffer".data)
    else .ok (.B256 (bytes.take 32), bytes.drop 32)
  | .String n, bytes =>
    if bytes.length < padded_len n then .error (.invalidData "not enough bytes in buffer".data)
    else
      let data := bytes.take n
      if !data.all (fun b => b < 128) then
        .error (.invalidData "String data can only have ascii values".data)
      else .ok (.String ⟨data, n⟩, bytes.drop (padded_len n))
  | .Array t n, bytes =>
    match decodeN t n bytes with
    | .ok (toks, rest) => .ok (.Array toks, rest)
    | .error e => .error e
  | .Vector _, _ =>
    .error (.unsupported "vector decoding is outside the modelled static fragment".data)
  | .Tuple ts, bytes =>
    match decodeSeqC ts bytes with
    | .ok (toks, rest) => .ok (.Tuple toks, rest)
    | .error e => .error e
  | .Struct ts, bytes =>
    match decodeSeqC ts bytes with
    | .ok (toks, rest) => .ok (.Struct toks, rest)
    | .error e => .error e
  | .Enum vs, bytes =>
    if bytes.length < 8 + maxVariantWidth vs then
      .error (.invalidData "not enough bytes in buffer".data)
    else
      let d := beVal (bytes.take 8)
      match h : vs.get? d with
      | none => .error (.invalidData "enum discriminant out of range".data)
      | some pt =>
        match decodeParam pt ((bytes.drop 8).take (maxVariantWidth vs)) with
        | .ok (tok, _) => .ok (.Enum d tok vs, bytes.drop (8 + maxVariantWidth vs))
        | .error e => .error e
  termination_by pt _ => (sizeOf pt, 0)
  decreasing_by
    all_goals simp_wf
    · apply Prod.Lex.left; omega
    · apply Prod.Lex.left; omega
    · apply Prod.Lex.left; omega
    · have := List.sizeOf_lt_of_mem (List.get?_mem h)
      apply Prod.Lex.left; omega

/-- Decode a sequence of types, advancing the cursor cumulatively. -/
def decodeSeqC : List ParamType → List Nat → Except CodecError (List Token × List Nat)
  | [], bytes => .ok ([], bytes)
  | t :: ts, bytes =>
    match decodeParam t bytes with
    | .ok (tok, rest) =>
      match decodeSeqC ts rest with
      | .ok (toks, rest2) => .ok (tok :: toks, rest2)
      | .error e => .error e
    | .error e => .error e
  termination_by ts _ => (sizeOf ts, 0)
  decreasing_by
    all_goals simp_wf
    · apply Prod.Lex.left; omega
    · apply Prod.Lex.left; omega

/-- Decode `n` copies of an element type. -/
def decodeN : ParamType → Nat → List Nat → Except CodecError (List Token × List Nat)
  | _, 0, bytes => .ok ([], bytes)
  | t, n + 1, bytes =>
    match decodeParam t bytes with
    | .ok (tok, rest) =>
      match decodeN t n rest with
      | .ok (toks, rest2) => .ok (tok :: toks, rest2)
      | .error e => .error e
    | .error e => .error e
  termination_by t n _ => (sizeOf t, n)
  decreasing_by
    all_goals simp_wf
    · apply Prod.Lex.right; omega
    · apply Prod.Lex.right; omega
end

/-- `ABIDecoder::decode`: decode a type sequence from a buffer. -/
def decodeTop (params : List ParamType) (bytes : List Nat) : Except CodecError (List Token) :=
  match decodeSeqC params bytes with
  | .ok (toks, _) => .ok toks
  | .error e => .error e

/-! ## Call construction (`fuels-rs/src/contract.rs`) -/

/-- `Contract::method_hash` line 185: an argument list takes custom
inputs exactly when some argument token is a `Struct`. -/
def custom_inputs_of (args : List Token) : Bool :=
  args.any fun t =>
    match t with
    | .Struct _ => true
    | _ => false

/-- `Contract::call` lines 111-117: the offset pointing at the custom
type data, `script_data_offset + ContractId::LEN + 2 * WORD_SIZE`. -/
def call_data_offset (script_data_offset : Nat) : Nat :=
  script_data_offset + 32 + 2 * 8

/-- `Contract::call` lines 97-122: the `script_data` blob — contract id,
then the encoded selector if any, then (only when `custom_inputs`) the
big-endian `call_data_offset` word, then the encoded arguments if any. -/
def script_data (contract_id : List Nat) (encoded_selector : Option (List Nat))
    (encoded_args : Option (List Nat)) (custom_inputs : Bool)
    (script_data_offset : Nat) : List Nat :=
  contract_id
    ++ (match encoded_selector with | some e => e | none => [])
    ++ (if custom_inputs then beBytes 8 (call_data_offset script_data_offset) else [])
    ++ (match encoded_args with | some e => e | none => [])

/-- A receipt as `ContractCall::call` consumes it: only its optional
return value register matters here. -/
structure Receipt where
  val : Option Nat

/-- `ContractCall::get_receipt_value`: scan the receipts in order and
return the first present value. -/
def get_receipt_value : List Receipt → Option Nat
  | [] => none
  | r :: rs => if r.val.isSome then r.val else get_receipt_value rs

/-- `ContractCall::call` lines 356-359: the byte buffer handed to the
decoder — the found value's big-endian bytes, or an all-zero word. -/
def returned_value_bytes (receipts : List Receipt) : List Nat :=
  match get_receipt_value receipts with
  | some v => beBytes 8 v
  | none => List.replicate 8 0

/-- `ContractCall::call` lines 361-363: decode the declared output
types from the returned-value buffer. -/
def contract_call_decode (output_params : List ParamType) (receipts : List Receipt) :
    Except CodecError (List Token) :=
  decodeTop output_params (returned_value_bytes receipts)

/-! ## Log/receipt matcher (§4.6)

Modelled from the spec: the `logs_with_type` implementation is not
under `src/` (only its harness tests are); §4.6 specifies filtering by
declared type identifier, decoding each match, preserving order. -/

/-- A log-like record: a declared schema type identifier plus a raw
byte payload. -/
structure LogRecord where
  type_id : Nat
  payload : List Nat

/-- Modelled from the spec: `logs_with_type` — keep the records whose
declared type identifier equals the target's, decode each payload at
the target's `ParamType`, in original receipt order. -/
def logs_with_type (target : Nat) (pt : ParamType) : List LogRecord → Except CodecError (List Token)
  | [] => .ok []
  | r :: rs =>
    if r.type_id = target then
      match decodeParam pt r.payload with
      | .ok (tok, _) =>
        match logs_with_type target pt rs with
        | .ok vs => .ok (tok :: vs)
        | .error e => .error e
      | .error e => .error e
    else logs_with_type target pt rs

/-! ## Well-typed tokens

A specification-side typing relation: the token shapes that §3/§4.3
declare encodable at a given `ParamType`.  Composite premises are
stated pointwise so plain structural induction applies. -/

/-- `TypedToken t pt`: token `t` is a well-formed value of type `pt`. -/
inductive TypedToken : Token → ParamType → Prop
  | unit : TypedToken .Unit .Unit
  | u8 (v : Nat) : TypedToken (.U8 v) .U8
  | u16 (v : Nat) : TypedToken (.U16 v) .U16
  | u32 (v : Nat) : TypedToken (.U32 v) .U32
  | u64 (v : Nat) : TypedToken (.U64 v) .U64
  | bool (b : Bool) : TypedToken (.Bool b) .Bool
  | byte (v : Nat) : TypedToken (.Byte v) .Byte
  | b256 (bs : List Nat) : bs.length = 32 → TypedToken (.B256 bs) .B256
  | string (st : StringToken) (n : Nat) :
      st.expected_len = n → st.data.length = n → st.isAscii = true →
      TypedToken (.String st) (.String n)
  | array (xs : List Token) (t : ParamType) (n : Nat) :
      xs.length = n → (∀ x ∈ xs, TypedToken x t) →
      TypedToken (.Array xs) (.Array t n)
  | tuple (xs : List Token) (ts : List ParamType) :
      xs.length = ts.length → (∀ p ∈ xs.zip ts, TypedToken p.1 p.2) →
      TypedToken (.Tuple xs) (.Tuple ts)
  | struct (xs : List Token) (ts : List ParamType) :
      xs.length = ts.length → (∀ p ∈ xs.zip ts, TypedToken p.1 p.2) →
      TypedToken (.Struct xs) (.Struct ts)
  | enum (d : Nat) (t : Token) (vs : EnumVariants) (pt : ParamType) :
      vs.get? d = some pt → TypedToken t pt →
      TypedToken (.Enum d t vs) (.Enum vs)

/-! ## Helper lemmas -/

theorem beBytes_length (k v : Nat) : (beBytes k v).length = k := by
  induction k generalizing v with
  | zero => rfl
  | succ k ih => simp [beBytes, ih]

theorem containsChar_eq_mem (s : List Char) (c : Char) :
    containsChar s c = true ↔ c ∈ s := by
  induction s with
  | nil => simp [containsChar]
  | cons x t ih =>
    simp [containsChar, ih, List.mem_cons]
    constructor
    · rintro (h | h)
      · exact Or.inl h.symm
      · exact Or.inr h
    · rintro (h | h)
      · exact Or.inl h.symm
      · exact Or.inr h

theorem prefixCL_append_self (pat rest : List Char) :
    prefixCL pat (pat ++ rest) = true := by
  induction pat with
  | nil => rfl
  | cons p pt ih => simp [prefixCL, ih]

theorem containsSub_append_self (c : Char) (pt rest : List Char) :
    containsSub (c :: pt) ((c :: pt) ++ rest) = true := by
  have h := prefixCL_append_self (c :: pt) rest
  rw [List.cons_append] at h ⊢
  simp [containsSub, h]

theorem splitSS_cons_cons (c d : Char) (t : List Char) :
    splitSS (c :: d :: t) =
      if c = ';' ∧ d = ' ' then [] :: splitSS t
      else
        match splitSS (d :: t) with
        | r :: rs => (c :: r) :: rs
        | [] => [[c]] := rfl

theorem splitSS_no_semi (a : List Char) (h : ';' ∉ a) : splitSS a = [a] := by
  induction a with
  | nil => rfl
  | cons c t ih =>
    have hc : c ≠ ';' := fun hc => h (hc ▸ List.mem_cons_self c t)
    have ht : ';' ∉ t := fun hm => h (List.mem_cons_of_mem c hm)
    cases t with
    | nil => rfl
    | cons d t' =>
      rw [splitSS_cons_cons, if_neg (by simp [hc]), ih ht]

theorem splitSS_append (a b : List Char) (h : ';' ∉ a) :
    splitSS (a ++ ';' :: ' ' :: b) = a :: splitSS b := by
  induction a with
  | nil => rw [List.nil_append, splitSS_cons_cons, if_pos ⟨rfl, rfl⟩]
  | cons c t ih =>
    have hc : c ≠ ';' := fun hc => h (hc ▸ List.mem_cons_self c t)
    have ht : ';' ∉ t := fun hm => h (List.mem_cons_of_mem c hm)
    have ihh := ih ht
    cases t with
    | nil =>
      simp only [List.nil_append] at ihh
      simp only [List.cons_append, List.nil_append]
      rw [splitSS_cons_cons, if_neg (by simp [hc]), ihh]
    | cons d t' =>
      simp only [List.cons_append] at ihh ⊢
      rw [splitSS_cons_cons, if_neg (by simp [hc]), ihh]

theorem splitCharCL_cons (sep c : Char) (t : List Char) :
    splitCharCL sep (c :: t) =
      if c = sep then [] :: splitCharCL sep t
      else
        match splitCharCL sep t with
        | r :: rs => (c :: r) :: rs
        | [] => [[c]] := rfl

theorem splitCharCL_no_sep (sep : Char) (a : List Char) (h : sep ∉ a) :
    splitCharCL sep a = [a] := by
  induction a with
  | nil => rfl
  | cons c t ih =>
    have hc : c ≠ sep := fun hc => h (hc ▸ List.mem_cons_self c t)
    have ht : sep ∉ t := fun hm => h (List.mem_cons_of_mem c hm)
    rw [splitCharCL_cons, if_neg hc, ih ht]

theorem splitCharCL_append (sep : Char) (a b : List Char) (h : sep ∉ a) :
    splitCharCL sep (a ++ sep :: b) = a :: splitCharCL sep b := by
  induction a with
  | nil => rw [List.nil_append, splitCharCL_cons, if_pos rfl]
  | cons c t ih =>
    have hc : c ≠ sep := fun hc => h (hc ▸ List.mem_cons_self c t)
    have ht : sep ∉ t := fun hm => h (List.mem_cons_of_mem c hm)
    rw [List.cons_append, splitCharCL_cons, if_neg hc, ih ht]

theorem parseUsize_some (ds : List Char) (n : Nat) (h : parseUsize ds = some n) :
    ds ≠ [] ∧ ∀ c ∈ ds, c.isDigit = true := by
  unfold parseUsize at h
  split at h
  · next hcond =>
    simp only [Bool.and_eq_true, Bool.not_eq_true', List.isEmpty_eq_false_iff_exists_mem,
      List.all_eq_true] at hcond
    refine ⟨?_, hcond.2⟩
    intro hnil
    rw [hnil] at hcond
    rcases hcond.1 with ⟨x, hx⟩
    exact absurd hx (List.not_mem_nil x)
  · exact absurd h (by simp)

theorem digit_ne_special (c : Char) (h : c.isDigit = true) :
    c ≠ ';' ∧ c ≠ '[' ∧ c ≠ ']' ∧ c ≠ ' ' := by
  refine ⟨?_, ?_, ?_, ?_⟩ <;> rintro rfl <;> simp_all [Char.isDigit]

theorem encodeList_cons (x : Token) (xs : List Token) :
    encodeList (x :: xs) =
      match encodeToken x with
      | .ok b =>
        match encodeList xs with
        | .ok r => .ok (b ++ r)
        | .error e => .error e
      | .error e => .error e := rfl

theorem mem_le_maxVariantWidth (pt : ParamType) (vs : List ParamType) (h : pt ∈ vs) :
    staticSize pt ≤ maxVariantWidth vs := by
  induction vs with
  | nil => cases h
  | cons v t ih =>
    rcases List.mem_cons.mp h with rfl | hm
    · exact le_max_left _ _
    · exact le_trans (ih hm) (le_max_right _ _)

theorem encodeList_replicated (xs : List Token) (t : ParamType)
    (h : ∀ x ∈ xs, ∃ bs, encodeToken x = .ok bs ∧ bs.length = staticSize t) :
    ∃ bs, encodeList xs = .ok bs ∧ bs.length = xs.length * staticSize t := by
  induction xs with
  | nil => exact ⟨[], rfl, by simp⟩
  | cons x xs ih =>
    obtain ⟨b, hb, hbl⟩ := h x (List.mem_cons_self _ _)
    obtain ⟨r, hr, hrl⟩ := ih fun y hy => h y (List.mem_cons_of_mem _ hy)
    refine ⟨b ++ r, ?_, ?_⟩
    · rw [encodeList_cons, hb, hr]
    · rw [List.length_append, hbl, hrl, List.length_cons]
      ring

theorem encodeList_zipped (xs : List Token) (ts : List ParamType)
    (hlen : xs.length = ts.length)
    (h : ∀ p ∈ xs.zip ts, ∃ bs, encodeToken p.1 = .ok bs ∧ bs.length = staticSize p.2) :
    ∃ bs, encodeList xs = .ok bs ∧ bs.length = sizeList ts := by
  induction xs generalizing ts with
  | nil =>
    cases ts with
    | nil => exact ⟨[], rfl, rfl⟩
    | cons t ts' => simp at hlen
  | cons x xs ih =>
    cases ts with
    | nil => simp at hlen
    | cons t ts' =>
      obtain ⟨b, hb, hbl⟩ := h (x, t) (by simp [List.zip_cons_cons])
      obtain ⟨r, hr, hrl⟩ := ih ts' (by simpa using hlen)
        fun p hp => h p (by rw [List.zip_cons_cons]; exact List.mem_cons_of_mem _ hp)
      refine ⟨b ++ r, ?_, ?_⟩
      · rw [encodeList_cons, hb, hr]
      · rw [List.length_append, hbl, hrl]
        rfl

theorem encode_typed (t : Token) (pt : ParamType) (h : TypedToken t pt) :
    ∃ bs, encodeToken t = .ok bs ∧ bs.length = staticSize pt := by
  induction h with
  | unit => exact ⟨[], rfl, rfl⟩
  | u8 v => exact ⟨pad_u8 v, rfl, rfl⟩
  | u16 v => exact ⟨pad_u16 v, rfl, by simp [pad_u16, beBytes_length, staticSize]⟩
  | u32 v => exact ⟨pad_u32 v, rfl, by simp [pad_u32, beBytes_length, staticSize]⟩
  | u64 v => exact ⟨beBytes 8 v, rfl, by simp [beBytes_length, staticSize]⟩
  | bool b => exact ⟨_, rfl, by simp [staticSize]⟩
  | byte v => exact ⟨pad_u8 v, rfl, rfl⟩
  | b256 bs hl => exact ⟨bs, rfl, by rw [hl]; rfl⟩
  | string st n he hl ha =>
    have hv : st.validate = .ok () := by
      unfold StringToken.validate
      rw [if_neg (by simp [ha]), if_neg (by simp [hl, he])]
    have henc : st.get_encodable_str = .ok st.data := by
      unfold StringToken.get_encodable_str
      rw [hv]
    refine ⟨pad_string st.data, ?_, ?_⟩
    · show (match st.get_encodable_str with
        | .ok s => Except.ok (pad_string s)
        | .error e => Except.error e) = _
      rw [henc]
    · show (pad_string st.data).length = padded_len n
      rw [pad_string, List.length_append, List.length_replicate, hl]
      have : n ≤ padded_len n := by unfold padded_len; omega
      omega
  | array xs t n hlen hall ih =>
    obtain ⟨bs, hb, hl2⟩ := encodeList_replicated xs t ih
    exact ⟨bs, hb, by rw [hl2, hlen]; rfl⟩
  | tuple xs ts hlen hall ih =>
    obtain ⟨bs, hb, hl2⟩ := encodeList_zipped xs ts hlen ih
    exact ⟨bs, hb, by rw [hl2]; rfl⟩
  | struct xs ts hlen hall ih =>
    obtain ⟨bs, hb, hl2⟩ := encodeList_zipped xs ts hlen ih
    exact ⟨bs, hb, by rw [hl2]; rfl⟩
  | enum d t vs pt hget ht ih =>
    obtain ⟨p, hp, hpl⟩ := ih
    have hle : staticSize pt ≤ maxVariantWidth vs :=
      mem_le_maxVariantWidth _ _ (List.get?_mem hget)
    refine ⟨beBytes 8 d ++ p ++ List.replicate (maxVariantWidth vs - p.length) 0, ?_, ?_⟩
    · show (match encodeToken t with
        | .ok payload =>
          Except.ok (beBytes 8 d ++ payload ++ List.replicate (maxVariantWidth vs - payload.length) 0)
        | .error e => Except.error e) = _
      rw [hp]
    · show _ = 8 + maxVariantWidth vs
      rw [List.length_append, List.length_append, List.length_replicate, beBytes_length, hpl]
      omega

theorem pptfp_succ (fuel : Nat) (p : Property) :
    parse_param_type_from_property (fuel + 1) p =
      match ParamType.fromStr p.type_field with
      | some pt => .ok pt
      | none =>
        if p.type_field = "()".data then .ok .Unit
        else if containsChar p.type_field '[' && containsChar p.type_field ']' then
          if containsSub "str[".data p.type_field then parse_string_param p
          else parse_array_param_aux
            (parse_custom_type_param_aux (parse_param_type_from_property fuel)) p
        else if startsWithChar p.type_field '(' && endsWithChar p.type_field ')' then
          parse_tuple_param_aux (parse_param_type_from_property fuel) p
        else parse_custom_type_param_aux (parse_param_type_from_property fuel) p := rfl

theorem logs_with_type_cons (target : Nat) (pt : ParamType) (r : LogRecord)
    (rs : List LogRecord) :
    logs_with_type target pt (r :: rs) =
      if r.type_id = target then
        match decodeParam pt r.payload with
        | .ok (tok, _) =>
          match logs_with_type target pt rs with
          | .ok vs => .ok (tok :: vs)
          | .error e => .error e
        | .error e => .error e
      else logs_with_type target pt rs := rfl

theorem get_receipt_value_cons (r : Receipt) (rs : List Receipt) :
    get_receipt_value (r :: rs) =
      if r.val.isSome then r.val else get_receipt_value rs := rfl

/-! ## Claim theorems -/

/-- C3 (amended): resolution of a custom-type property (struct/enum or
free-form syntax: no primitive keyword, no bracket pair, no
parenthesised form) whose `components` field is absent returns an
`InvalidType` error rather than crashing; but a tuple-syntax property
with absent components panics (`expect`), so resolution is not total. -/
theorem c3_no_components_behaviour :
    (∀ (fuel : Nat) (p : Property),
      p.components = none →
      ParamType.fromStr p.type_field = none →
      p.type_field ≠ "()".data →
      (containsChar p.type_field '[' && containsChar p.type_field ']') = false →
      (startsWithChar p.type_field '(' && endsWithChar p.type_field ')') = false →
      parse_param_type_from_property (fuel + 1) p
        = .err (.invalidType "cannot parse custom type with no components".data))
    ∧ (∀ (fuel : Nat) (p : Property),
      p.components = none →
      ParamType.fromStr p.type_field = none →
      p.type_field ≠ "()".data →
      (containsChar p.type_field '[' && containsChar p.type_field ']') = false →
      (startsWithChar p.type_field '(' && endsWithChar p.type_field ')') = true →
      parse_param_type_from_property (fuel + 1) p
        = .panicked "tuples should have components".data) := by
  constructor
  · intro fuel p hcomp hfs htf hbr hpar
    rw [pptfp_succ]
    simp only [hfs]
    rw [if_neg htf,
      if_neg (show ¬((containsChar p.type_field '[' && containsChar p.type_field ']') = true) by
        rw [hbr]; simp),
      if_neg (show ¬((startsWithChar p.type_field '(' && endsWithChar p.type_field ')') = true) by
        rw [hpar]; simp)]
    unfold parse_custom_type_param_aux
    simp only [hcomp]
  · intro fuel p hcomp hfs htf hbr hpar
    rw [pptfp_succ]
    simp only [hfs]
    rw [if_neg htf,
      if_neg (show ¬((containsChar p.type_field '[' && containsChar p.type_field ']') = true) by
        rw [hbr]; simp),
      if_pos hpar]
    unfold parse_tuple_param_aux
    simp only [hcomp]

/-- C3 counterexample: resolution is not total — a tuple-syntax
property and an array-of-custom-type property with absent `components`
both panic (`expect`) instead of returning an `InvalidType` error. -/
theorem c3_resolution_panics :
    parse_param_type_from_property 9 (.mk "x".data "(u64, u64)".data none)
      = .panicked "tuples should have components".data
    ∧ parse_param_type_from_property 9 (.mk "x".data "[struct Foo; 2]".data none)
      = .panicked "array should have components".data :=
  ⟨rfl, rfl⟩

/-- C3 witness: the amended behaviour at concrete inputs `struct Foo`
(custom syntax, no components → `InvalidType`) and `(u64, u64)`
(tuple syntax, no components → panic). -/
theorem c3_no_components_behaviour_witness :
    parse_param_type_from_property 1 (.mk "x".data "struct Foo".data none)
      = .err (.invalidType "cannot parse custom type with no components".data)
    ∧ parse_param_type_from_property 1 (.mk "x".data "(u64, u64)".data none)
      = .panicked "tuples should have components".data :=
  ⟨c3_no_components_behaviour.1 0 _ rfl rfl (by decide) rfl rfl,
   c3_no_components_behaviour.2 0 _ rfl rfl (by decide) rfl rfl⟩

/-- C1 (amended): `Contract::method_hash` sets `custom_inputs` to true
iff some argument token is a `Struct` (tokens of any other kind,
including `Enum`, never set it, and a struct of any width does), and
`Contract::call` places the big-endian `call_data_offset` word between
the selector and the encoded arguments exactly when `custom_inputs` is
true. -/
theorem c1_custom_inputs_struct_only :
    (∀ args : List Token,
      custom_inputs_of args = true ↔ ∃ xs, Token.Struct xs ∈ args)
    ∧ (∀ (cid sel eargs : List Nat) (off : Nat),
        script_data cid (some sel) (some eargs) true off
          = cid ++ sel ++ beBytes 8 (call_data_offset off) ++ eargs)
    ∧ (∀ (cid sel eargs : List Nat) (off : Nat),
        script_data cid (some sel) (some eargs) false off = cid ++ sel ++ eargs) := by
  refine ⟨?_, ?_, ?_⟩
  · intro args
    unfold custom_inputs_of
    rw [List.any_eq_true]
    constructor
    · rintro ⟨t, ht, hf⟩
      cases t <;> simp at hf
      exact ⟨_, ht⟩
    · rintro ⟨xs, hx⟩
      exact ⟨.Struct xs, hx, rfl⟩
  · intro cid sel eargs off
    simp [script_data, List.append_assoc]
  · intro cid sel eargs off
    simp [script_data, List.append_assoc]

/-- C1 counterexample: with a single (two-word) enum argument,
`method_hash` computes `custom_inputs = false` even though an enum is a
multi-word composite; with a single one-word struct argument it
computes `true` even though that struct is not multi-word.  So
`custom_inputs` does not equal "some argument is a multi-word struct or
enum" in either direction. -/
theorem c1_claimed_iff_fails :
    custom_inputs_of [Token.Enum 0 (.U32 42) [.U32, .Bool]] = false
    ∧ encodeToken (Token.Enum 0 (.U32 42) [.U32, .Bool])
        = .ok [0, 0, 0, 0, 0, 0, 0, 0, 0, 0, 0, 0, 0, 0, 0, 0x2a]
    ∧ custom_inputs_of [Token.Struct [Token.U8 1]] = true
    ∧ encodeToken (Token.Struct [Token.U8 1]) = .ok [0, 0, 0, 0, 0, 0, 0, 1] :=
  ⟨rfl, rfl, rfl, rfl⟩

/-- C2: consuming a `StringToken` (via `get_encodable_str` or the
`TryFrom` conversion) fails with `InvalidData` iff the stored data's
byte length differs from `expected_len` or the data is not pure ascii;
otherwise it returns the stored string unchanged. -/
theorem c2_stringtoken_validation (st : StringToken) :
    ((∃ m, st.get_encodable_str = .error (.invalidData m))
        ↔ (st.data.length ≠ st.expected_len ∨ st.isAscii = false))
    ∧ (st.data.length = st.expected_len ∧ st.isAscii = true →
        st.get_encodable_str = .ok st.data)
    ∧ stringTryFrom st = st.get_encodable_str := by
  refine ⟨?_, ?_, rfl⟩
  · unfold StringToken.get_encodable_str StringToken.validate
    cases hasc : st.isAscii with
    | false =>
      rw [show (!false) = true from rfl, if_pos rfl]
      exact ⟨fun _ => Or.inr rfl, fun _ => ⟨_, rfl⟩⟩
    | true =>
      rw [show (!true) = false from rfl, if_neg (by simp)]
      by_cases hl : st.data.length = st.expected_len
      · rw [if_neg (by simp [hl])]
        constructor
        · rintro ⟨m, hm⟩; simp at hm
        · rintro (h | h)
          · exact absurd hl h
          · simp at h
      · rw [if_pos hl]
        exact ⟨fun _ => Or.inl hl, fun _ => ⟨_, rfl⟩⟩
  · rintro ⟨hl, hasc⟩
    unfold StringToken.get_encodable_str StringToken.validate
    rw [if_neg (by simp [hasc]), if_neg (by simp [hl])]

/-- C4 counterexample: two properties whose `type_field` has the
bracketed array form `[T; n]` and is not itself the string form
`str[n]`, yet `parse_param_type_from_property` returns `InvalidType`
instead of an `Array`: `[str[1]; 2]` (the embedded `str[` routes it to
the string parser) and `[[u8; 2]; 3]` (the embedded `; ` makes the
array split produce three parts). -/
theorem c4_bracketed_form_fails :
    parse_param_type_from_property 9 (.mk "x".data "[str[1]; 2]".data none)
      = .err (.invalidType "Expected parameter type `str[n]`, found `[str[1]; 2]`".data)
    ∧ parse_param_type_from_property 9 (.mk "x".data "[[u8; 2]; 3]".data none)
      = .err (.invalidType "Expected parameter type `[T; n]`, found `[[u8; 2]; 3]`".data) :=
  ⟨rfl, rfl⟩

/-- C4 (amended): for a property whose `type_field` is exactly
`'[' T '; ' ds ']'` where `T` contains no semicolon, the whole string
does not contain the substring `str[`, and `ds` are digits denoting
`n`, resolution returns `Array` of the resolved element paired with
`n`: the element comes from the keyword table when `T` is primitive,
and from the property's first child component when `T` is custom.  A
field of the fixed-length string form `str[ds]` instead resolves to
`String n`. -/
theorem c4_array_and_string_resolution :
    (∀ (fuel : Nat) (p : Property) (T ds : List Char) (n : Nat),
      p.type_field = '[' :: T ++ ';' :: ' ' :: (ds ++ [']']) →
      ';' ∉ T →
      containsSub "str[".data p.type_field = false →
      parseUsize ds = some n →
      (∀ pt, ParamType.fromStr T = some pt →
        parse_param_type_from_property (fuel + 1) p = .ok (.Array pt n))
      ∧ (∀ c rest t, ParamType.fromStr T = none →
          p.components = some (c :: rest) →
          parse_custom_type_param fuel c = .ok t →
          parse_param_type_from_property (fuel + 1) p = .ok (.Array t n)))
    ∧ (∀ (fuel : Nat) (q : Property) (ds : List Char) (m : Nat),
      q.type_field = "str[".data ++ ds ++ [']'] →
      parseUsize ds = some m →
      parse_param_type_from_property (fuel + 1) q = .ok (.String m)) := by
  constructor
  · intro fuel p T ds n htf hsemi hstr hds
    obtain ⟨hdsne, hdsdig⟩ := parseUsize_some ds n hds
    have hfs : ParamType.fromStr p.type_field = none := by rw [htf]; rfl
    have htfne : p.type_field ≠ "()".data := by
      rw [htf]; intro h; injection h with h1 _; exact absurd h1 (by decide)
    have hmem_rbr : ']' ∈ p.type_field := by
      rw [htf]
      exact List.mem_cons_of_mem _ (List.mem_append_right T
        (List.mem_cons_of_mem _ (List.mem_cons_of_mem _
          (List.mem_append_right ds (List.mem_singleton.mpr rfl)))))
    have hbr : (containsChar p.type_field '[' && containsChar p.type_field ']') = true := by
      rw [Bool.and_eq_true]
      refine ⟨?_, (containsChar_eq_mem _ _).mpr hmem_rbr⟩
      rw [htf]; rfl
    have hsemi0 : ';' ∉ '[' :: T := by
      intro hm
      rcases List.mem_cons.mp hm with h | h
      · exact absurd h (by decide)
      · exact hsemi h
    have hsemi1 : ';' ∉ ds ++ [']'] := by
      intro hm
      rcases List.mem_append.mp hm with h | h
      · exact absurd rfl (digit_ne_special ';' (hdsdig ';' h)).1
      · exact absurd (List.mem_singleton.mp h) (by decide)
    have hsplit : splitSS p.type_field = ['[' :: T, ds ++ [']']] := by
      rw [htf,
        show '[' :: T ++ ';' :: ' ' :: (ds ++ [']'])
          = ('[' :: T) ++ ';' :: ' ' :: (ds ++ [']']) from rfl,
        splitSS_append _ _ hsemi0, splitSS_no_semi _ hsemi1]
    have hsize_ne : (ds ++ [']']).isEmpty = false := by cases ds <;> rfl
    have hdispatch : parse_param_type_from_property (fuel + 1) p
        = parse_array_param_aux
            (parse_custom_type_param_aux (parse_param_type_from_property fuel)) p := by
      rw [pptfp_succ]
      simp only [hfs]
      rw [if_neg htfne, if_pos hbr,
        if_neg (show ¬(containsSub "str[".data p.type_field = true) by rw [hstr]; simp)]
    constructor
    · intro pt hpt
      rw [hdispatch]
      unfold parse_array_param_aux
      simp only [hsplit, List.length_cons, List.length_nil, List.getD_cons_zero,
        List.getD_cons_succ, List.isEmpty_cons, List.drop_succ_cons, List.drop_zero,
        hpt, hsize_ne, List.dropLast_concat, hds]
      simp
    · intro c rest t hfsT hcomps hcust
      have hcust' : parse_custom_type_param_aux (parse_param_type_from_property fuel) c
          = .ok t := hcust
      rw [hdispatch]
      unfold parse_array_param_aux
      simp only [hsplit, List.length_cons, List.length_nil, List.getD_cons_zero,
        List.getD_cons_succ, List.isEmpty_cons, List.drop_succ_cons, List.drop_zero,
        hfsT, hcomps, hcust', hsize_ne, List.dropLast_concat, hds]
      simp
  · intro fuel q ds m htf hpu
    obtain ⟨hdsne, hdsdig⟩ := parseUsize_some ds m hpu
    have htf' : q.type_field = 's' :: 't' :: 'r' :: '[' :: (ds ++ [']']) := by rw [htf]; rfl
    have hfs : ParamType.fromStr q.type_field = none := by rw [htf']; rfl
    have htfne : q.type_field ≠ "()".data := by
      rw [htf']; intro h; injection h with h1 _; exact absurd h1 (by decide)
    have hbr : (containsChar q.type_field '[' && containsChar q.type_field ']') = true := by
      rw [Bool.and_eq_true, htf']
      refine ⟨(containsChar_eq_mem _ _).mpr ?_, (containsChar_eq_mem _ _).mpr ?_⟩
      · exact List.mem_cons_of_mem _ (List.mem_cons_of_mem _ (List.mem_cons_of_mem _
          (List.mem_cons_self _ _)))
      · exact List.mem_cons_of_mem _ (List.mem_cons_of_mem _ (List.mem_cons_of_mem _
          (List.mem_cons_of_mem _ (List.mem_append_right ds (List.mem_singleton.mpr rfl)))))
    have hcs : containsSub "str[".data q.type_field = true := by
      rw [htf']
      exact containsSub_append_self 's' "tr[".data (ds ++ [']'])
    have hlb : '[' ∉ ds ++ [']'] := by
      intro hm
      rcases List.mem_append.mp hm with h | h
      · exact absurd rfl (digit_ne_special '[' (hdsdig '[' h)).2.1
      · exact absurd (List.mem_singleton.mp h) (by decide)
    have hsplit : splitCharCL '[' q.type_field = ["str".data, ds ++ [']']] := by
      rw [htf',
        show 's' :: 't' :: 'r' :: '[' :: (ds ++ [']'])
          = ['s', 't', 'r'] ++ '[' :: (ds ++ [']']) from rfl,
        splitCharCL_append '[' _ _ (by decide), splitCharCL_no_sep '[' _ hlb]
    have hsize_ne : (ds ++ [']']).isEmpty = false := by cases ds <;> rfl
    rw [pptfp_succ]
    simp only [hfs]
    rw [if_neg htfne, if_pos hbr, if_pos hcs]
    unfold parse_string_param
    simp only [hsplit, List.length_cons, List.length_nil, List.getD_cons_zero,
      List.getD_cons_succ, hsize_ne, List.dropLast_concat, hpu]
    simp

/-- C4 witness: the amended resolution at the concrete inputs
`[u64; 3]` (primitive element) and `str[5]`. -/
theorem c4_array_and_string_resolution_witness :
    parseUsize "3".data = some 3 ∧ parseUsize "5".data = some 5
    ∧ parse_param_type_from_property 5 (.mk "x".data "[u64; 3]".data none)
        = .ok (.Array .U64 3)
    ∧ parse_param_type_from_property 5 (.mk "x".data "str[5]".data none)
        = .ok (.String 5) :=
  ⟨rfl, rfl,
    (c4_array_and_string_resolution.1 4 (.mk "x".data "[u64; 3]".data none)
      "u64".data "3".data 3 rfl (by decide) rfl rfl).1 .U64 rfl,
    c4_array_and_string_resolution.2 4 (.mk "x".data "str[5]".data none)
      "5".data 5 rfl rfl⟩

/-- C2 witness: a valid two-byte ascii token (`"hi"`, expected length
2) is returned unchanged. -/
theorem c2_stringtoken_validation_witness :
    (StringToken.new [104, 105] 2).data.length = (StringToken.new [104, 105] 2).expected_len
    ∧ (StringToken.new [104, 105] 2).isAscii = true
    ∧ (StringToken.new [104, 105] 2).get_encodable_str = .ok [104, 105] :=
  ⟨rfl, rfl, (c2_stringtoken_validation _).2.1 ⟨rfl, rfl⟩⟩

/-- C5: for `takes_ints_returns_bool(u32)` applied to `42`, the
selector word is the first 4 bytes of the hash of the canonical
signature placed in the low half of an 8-byte word, and the full blob
(selector word ++ resolved encoded argument word) is
`000000009593586c000000000000002a`. -/
theorem c5_scenario_a :
    compute_selector "takes_ints_returns_bool".data [.U32]
      = [0, 0, 0, 0, 0x95, 0x93, 0x58, 0x6c]
    ∧ encodeList [Token.U32 42] = .ok [0, 0, 0, 0, 0, 0, 0, 0x2a]
    ∧ compute_selector "takes_ints_returns_bool".data [.U32]
        ++ resolveBuf [0, 0, 0, 0, 0, 0, 0, 0x2a] 0
      = [0, 0, 0, 0, 0x95, 0x93, 0x58, 0x6c, 0, 0, 0, 0, 0, 0, 0, 0x2a] :=
  ⟨rfl, rfl, rfl⟩

/-- C6: `MyEnum::X(42)` (variants `u32`, `bool`) passed to `takes_enum`
produces the selector word `0000000021b2784f` followed by discriminant
word 0 and the payload word 42 in the widest-variant slot; and in
general every well-typed enum token encodes to exactly
`8 + max_over_variants(staticSize)` bytes, independent of the active
variant. -/
theorem c6_enum_encoding :
    compute_selector "takes_enum".data [.Enum [.U32, .Bool]]
      = [0, 0, 0, 0, 0x21, 0xb2, 0x78, 0x4f]
    ∧ encodeList [Token.Enum 0 (.U32 42) [.U32, .Bool]]
        = .ok [0, 0, 0, 0, 0, 0, 0, 0, 0, 0, 0, 0, 0, 0, 0, 0x2a]
    ∧ ∀ (d : Nat) (t : Token) (vs : EnumVariants) (pt : ParamType),
        vs.get? d = some pt → TypedToken t pt →
        ∃ bs, encodeToken (.Enum d t vs) = .ok bs ∧ bs.length = 8 + maxVariantWidth vs := by
  refine ⟨rfl, rfl, ?_⟩
  intro d t vs pt hget ht
  exact encode_typed _ _ (TypedToken.enum d t vs pt hget ht)

/-- C6 witness: the enum-width property applied to the concrete token
`MyEnum::X(42)`. -/
theorem c6_enum_encoding_witness :
    ([ParamType.U32, ParamType.Bool].get? 0 = some ParamType.U32)
    ∧ TypedToken (.U32 42) .U32
    ∧ ∃ bs, encodeToken (.Enum 0 (.U32 42) [.U32, .Bool]) = .ok bs
        ∧ bs.length = 8 + maxVariantWidth [ParamType.U32, ParamType.Bool] :=
  ⟨rfl, TypedToken.u32 42, c6_enum_encoding.2.2 0 _ _ _ rfl (TypedToken.u32 42)⟩

/-- C7: feeding the string-form property `str[5]` to the array-specific
parser fails with an `InvalidType` error whose message names the
expected `[T; n]` pattern and embeds the actual input `str[5]`. -/
theorem c7_array_parser_on_string_form (fuel : Nat) :
    parse_array_param fuel (.mk "some_array".data "str[5]".data none)
      = .err (.invalidType "Expected parameter type `[T; n]`, found `str[5]`".data)
    ∧ containsSub "[T; n]".data
        "Expected parameter type `[T; n]`, found `str[5]`".data = true
    ∧ containsSub "str[5]".data
        "Expected parameter type `[T; n]`, found `str[5]`".data = true :=
  ⟨rfl, by decide, by decide⟩

/-- C8: the padding helpers `pad_u8`, `pad_u16`, `pad_u32` each produce
one 8-byte word with the value's big-endian bytes right-aligned and the
high-order bytes zero; reading the word back as a big-endian number
recovers the value. -/
theorem c8_padding_words (a b c : Nat)
    (h8 : a < 256) (h16 : b < 65536) (h32 : c < 4294967296) :
    ((pad_u8 a).length = 8 ∧ (pad_u16 b).length = 8 ∧ (pad_u32 c).length = 8)
    ∧ pad_u8 a = [0, 0, 0, 0, 0, 0, 0, a]
    ∧ pad_u16 b = [0, 0, 0, 0, 0, 0, b / 256, b % 256]
    ∧ pad_u32 c = [0, 0, 0, 0, c / 16777216, c / 65536 % 256, c / 256 % 256, c % 256]
    ∧ beVal (pad_u8 a) = a ∧ beVal (pad_u16 b) = b ∧ beVal (pad_u32 c) = c
    ∧ (∀ x ∈ pad_u8 a, x < 256) ∧ (∀ x ∈ pad_u16 b, x < 256)
    ∧ (∀ x ∈ pad_u32 c, x < 256) := by
  have e16 : pad_u16 b = [0, 0, 0, 0, 0, 0, b / 256 % 256, b % 256] := rfl
  have e32 : pad_u32 c
      = [0, 0, 0, 0, c / 256 / 256 / 256 % 256, c / 256 / 256 % 256, c / 256 % 256, c % 256] := rfl
  simp only [Nat.div_div_eq_div_mul] at e32
  norm_num at e32
  refine ⟨⟨rfl, by rw [e16]; rfl, by rw [e32]; rfl⟩, rfl, ?_, ?_, ?_, ?_, ?_, ?_, ?_, ?_⟩
  · rw [e16]
    have : b / 256 % 256 = b / 256 := Nat.mod_eq_of_lt (by omega)
    rw [this]
  · rw [e32]
    have : c / 16777216 % 256 = c / 16777216 := Nat.mod_eq_of_lt (by omega)
    rw [this]
  · simp [beVal, pad_u8]
  · rw [e16]; simp [beVal]; omega
  · rw [e32]; simp [beVal]; omega
  · intro x hx
    rw [show pad_u8 a = [0, 0, 0, 0, 0, 0, 0, a] from rfl] at hx
    simp at hx
    rcases hx with hx | hx <;> omega
  · rw [e16]; intro x hx; simp at hx
    rcases hx with hx | hx | hx <;> omega
  · rw [e32]; intro x hx; simp at hx
    rcases hx with hx | hx | hx | hx | hx <;> omega

/-- C9: `logs_with_type` decodes exactly the records whose declared
type identifier matches the target, in original receipt order (it
equals decoding the matching sublist), and returns `Ok []` rather than
an error when no record matches. -/
theorem c9_logs_with_type (target : Nat) (pt : ParamType) (rs : List LogRecord) :
    logs_with_type target pt rs
      = (rs.filter fun r => r.type_id == target).mapM
          (fun r => (decodeParam pt r.payload).map Prod.fst)
    ∧ ((∀ r ∈ rs, r.type_id ≠ target) → logs_with_type target pt rs = .ok []) := by
  have main : logs_with_type target pt rs
      = (rs.filter fun r => r.type_id == target).mapM
          (fun r => (decodeParam pt r.payload).map Prod.fst) := by
    induction rs with
    | nil => rfl
    | cons r rs ih =>
      rw [logs_with_type_cons]
      by_cases h : r.type_id = target
      · rw [if_pos h, List.filter_cons_of_pos (by simp [h]), List.mapM_cons, ih]
        cases hd : decodeParam pt r.payload with
        | ok pr =>
          obtain ⟨tok, rest⟩ := pr
          cases hm : (rs.filter fun r => r.type_id == target).mapM
              (fun r => (decodeParam pt r.payload).map Prod.fst) with
          | ok vs => simp [hd, hm, Except.map, Bind.bind, Except.bind, pure, Except.pure]
          | error e => simp [hd, hm, Except.map, Bind.bind, Except.bind]
        | error e => simp [hd, Except.map, Bind.bind, Except.bind]
      · rw [if_neg h, List.filter_cons_of_neg (by simp [h]), ih]
  refine ⟨main, fun hall => ?_⟩
  rw [main, List.filter_eq_nil_iff.mpr fun r hr => by simp [hall r hr]]
  rfl

/-- C9 witness: a receipt list whose single record declares a different
type identifier yields `Ok []`. -/
theorem c9_logs_with_type_witness :
    (∀ r ∈ [LogRecord.mk 1 []], r.type_id ≠ 0)
    ∧ logs_with_type 0 .U64 [LogRecord.mk 1 []] = .ok [] := by
  have hall : ∀ r ∈ [LogRecord.mk 1 []], r.type_id ≠ 0 := by
    intro r hr
    rw [List.mem_singleton.mp hr]
    decide
  exact ⟨hall, (c9_logs_with_type 0 .U64 [LogRecord.mk 1 []]).2 hall⟩

/-- C10: `ContractCall::call` decodes the value of the first receipt in
order whose `val` is present; when no receipt carries a value, the
decoder is fed an all-zero 8-byte word instead of an error being
reported, so a declared one-word output type still decodes (here `u64`
decodes to 0). -/
theorem c10_receipt_value_decode (rs : List Receipt) :
    get_receipt_value rs = (rs.find? fun r => r.val.isSome).bind Receipt.val
    ∧ ((∀ r ∈ rs, r.val = none) →
        returned_value_bytes rs = List.replicate 8 0
        ∧ contract_call_decode [.U64] rs = .ok [.U64 0]) := by
  have main : get_receipt_value rs = (rs.find? fun r => r.val.isSome).bind Receipt.val := by
    induction rs with
    | nil => rfl
    | cons r rs ih =>
      rw [get_receipt_value_cons, List.find?_cons]
      cases hv : r.val.isSome with
      | true => simp [hv]
      | false => simp [hv, ih]
  refine ⟨main, fun hall => ?_⟩
  have hnone : get_receipt_value rs = none := by
    rw [main, List.find?_eq_none.mpr fun x hx => by simp [hall x hx]]
    rfl
  have hbytes : returned_value_bytes rs = List.replicate 8 0 := by
    unfold returned_value_bytes
    rw [hnone]
  refine ⟨hbytes, ?_⟩
  unfold contract_call_decode
  rw [hbytes, show List.replicate 8 (0 : Nat) = [0, 0, 0, 0, 0, 0, 0, 0] from rfl]
  have h1 : decodeParam .U64 [0, 0, 0, 0, 0, 0, 0, 0] = .ok (.U64 0, []) := by
    simp [decodeParam, beVal]
  have h2 : decodeSeqC [.U64] [0, 0, 0, 0, 0, 0, 0, 0] = .ok ([.U64 0], []) := by
    simp [decodeSeqC, h1]
  simp [decodeTop, h2]

/-- C10 witness: the no-value case on a single receipt whose `val` is
absent. -/
theorem c10_receipt_value_decode_witness :
    (∀ r ∈ [Receipt.mk none], r.val = none)
    ∧ returned_value_bytes [Receipt.mk none] = List.replicate 8 0
    ∧ contract_call_decode [.U64] [Receipt.mk none] = .ok [.U64 0] := by
  have hall : ∀ r ∈ [Receipt.mk none], r.val = none := by
    intro r hr
    rw [List.mem_singleton.mp hr]
  obtain ⟨h1, h2⟩ := (c10_receipt_value_decode [Receipt.mk none]).2 hall
  exact ⟨hall, h1, h2⟩

/-- C8 witness: the padding property at `a = 7`, `b = 0x1234`,
`c = 0xdeadbeef`. -/
theorem c8_padding_words_witness :
    (7 : Nat) < 256 ∧ (0x1234 : Nat) < 65536 ∧ (0xdeadbeef : Nat) < 4294967296
    ∧ (((pad_u8 7).length = 8 ∧ (pad_u16 0x1234).length = 8 ∧ (pad_u32 0xdeadbeef).length = 8)
      ∧ pad_u8 7 = [0, 0, 0, 0, 0, 0, 0, 7]
      ∧ pad_u16 0x1234 = [0, 0, 0, 0, 0, 0, 0x1234 / 256, 0x1234 % 256]
      ∧ pad_u32 0xdeadbeef
          = [0, 0, 0, 0, 0xdeadbeef / 16777216, 0xdeadbeef / 65536 % 256,
             0xdeadbeef / 256 % 256, 0xdeadbeef % 256]
      ∧ beVal (pad_u8 7) = 7 ∧ beVal (pad_u16 0x1234) = 0x1234
      ∧ beVal (pad_u32 0xdeadbeef) = 0xdeadbeef
      ∧ (∀ x ∈ pad_u8 7, x < 256) ∧ (∀ x ∈ pad_u16 0x1234, x < 256)
      ∧ (∀ x ∈ pad_u32 0xdeadbeef, x < 256)) :=
  ⟨by decide, by decide, by decide,
    c8_padding_words 7 0x1234 0xdeadbeef (by decide) (by decide) (by decide)⟩

end Fuels
